import Mathlib

/-!
Verification of the `Range` / `Content-Range` header codecs
(`src/header/common/range.rs`, `src/header/common/content_range.rs`).

The Rust code is shallowly embedded over `List Char` (Rust `&str` slices of
ASCII header values).  `u64` values are `Nat` together with an explicit
`< 2 ^ 64` bound where the code's integer parsing enforces it.  Rust's
fallible `FromStr` is embedded as `Except Unit` (the code's error type is
`()`).
-/

namespace HyperRange

/-- The number of distinct `u64` values; Rust's `u64::from_str` rejects
decimal numerals whose value does not fit below this bound. -/
def U64_SIZE : Nat := 2 ^ 64

/-- The ASCII character for the decimal digit `n` (`n < 10`). -/
def digitChar (n : Nat) : Char := Char.ofNat (48 + n)

/-- Decimal digits of `n`, most significant first — the characters Rust's
`Display` for `u64` writes (`write_fmt(format_args!("{}", v))`). -/
def natDigits (n : Nat) : List Char :=
  if _h : n < 10 then [digitChar n]
  else natDigits (n / 10) ++ [digitChar (n % 10)]
  decreasing_by exact Nat.div_lt_self (by omega) (by omega)

/-- The numeric value accumulated over a digit string, most significant
first — the accumulation loop of Rust's `from_str_radix` at radix 10. -/
def digitsToNat (l : List Char) : Nat :=
  l.foldl (fun a c => 10 * a + (c.toNat - 48)) 0

/-- Strip one leading `'+'` sign, as Rust's integer `from_str` does for
unsigned types (a leading `'-'` is not stripped for `u64`). -/
def stripPlus (s : List Char) : List Char :=
  match s with
  | c :: rest => if c = '+' then rest else s
  | [] => s

/-- Rust's `str::parse::<u64>()`: an optional leading `'+'`, then one or
more ASCII digits, value below `2 ^ 64`; anything else is an error. -/
def parseU64 (s : List Char) : Option Nat :=
  if stripPlus s ≠ [] ∧ (∀ c ∈ stripPlus s, c.isDigit = true) ∧
      digitsToNat (stripPlus s) < U64_SIZE
  then some (digitsToNat (stripPlus s)) else none

/-- Rust's `str::split(sep)` collected to a `Vec`: the (possibly empty)
chunks between occurrences of `sep`; the empty string yields `[[]]`. -/
def splitOnChar (sep : Char) : List Char → List (List Char)
  | [] => [[]]
  | c :: cs =>
    if c = sep then [] :: splitOnChar sep cs
    else match splitOnChar sep cs with
      | [] => [[c]]
      | h :: t => (c :: h) :: t

/-- `ByteRange` from `range.rs`: optional start and end of a byte range. -/
structure ByteRange where
  start : Option Nat
  «end» : Option Nat
deriving DecidableEq, Repr

/-- `ContentRangeSpec` from `content_range.rs`. -/
inductive ContentRangeSpec where
  /-- Range request was satisfied. -/
  | Satisfied (first_byte : Nat) (last_byte : Nat) (instance_length : Option Nat)
  /-- Range request was not satisfied. -/
  | Unsatisfied (instance_length : Nat)
deriving DecidableEq, Repr

/-- The inner `parse_part` of `ByteRange::from_str`: empty segment is
`None`; otherwise the segment must parse as a `u64`. -/
def parse_part (s : List Char) : Except Unit (Option Nat) :=
  if s.length = 0 then .ok none
  else match parseU64 s with
    | some v => .ok (some v)
    | none => .error ()

/-- `ByteRange::from_str` from `range.rs`: require the `"bytes="` prefix,
split the rest on `'-'` into exactly two parts, parse each with
`parse_part`, and reject `end < start` when both are present. -/
def byteRange_from_str (s : List Char) : Except Unit ByteRange :=
  if ("bytes=".data).isPrefixOf s then
    match splitOnChar '-' (s.drop ("bytes=".data).length) with
    | [p0, p1] =>
      match parse_part p0, parse_part p1 with
      | .ok st, .ok en =>
        match st, en with
        | some a, some b =>
          if b < a then .error () else .ok ⟨some a, some b⟩
        | _, _ => .ok ⟨st, en⟩
      | _, _ => .error ()
    | _ => .error ()
  else .error ()

/-- `Display for ByteRange` from `range.rs`: `"bytes="`, the decimal start
if present, `"-"`, the decimal end if present. -/
def byteRange_fmt (r : ByteRange) : List Char :=
  "bytes=".data ++
    (match r.start with | some v => natDigits v | none => []) ++
    ['-'] ++
    (match r.«end» with | some v => natDigits v | none => [])

/-- `ContentRangeSpec::from_str` from `content_range.rs`: require the
`"bytes "` prefix, split on `'/'` into exactly two parts; the second part
is `'*'` (unknown length) or a `u64`; the first is `'*'` (unsatisfied,
requiring a known length) or `first-last` with both mandatory `u64`s. -/
def contentRangeSpec_from_str (s : List Char) : Except Unit ContentRangeSpec :=
  if ("bytes ".data).isPrefixOf s then
    match splitOnChar '/' (s.drop ("bytes ".data).length) with
    | [p0, p1] =>
      match (if p1 = ['*'] then Except.ok none
             else match parseU64 p1 with
               | some v => Except.ok (some v)
               | none => Except.error () : Except Unit (Option Nat)) with
      | .error _ => .error ()
      | .ok instance_length =>
        if p0 = ['*'] then
          match instance_length with
          | some len => .ok (.Unsatisfied len)
          | none => .error ()
        else
          match splitOnChar '-' p0 with
          | [r0, r1] =>
            match parseU64 r0, parseU64 r1 with
            | some a, some b => .ok (.Satisfied a b instance_length)
            | _, _ => .error ()
          | _ => .error ()
    | _ => .error ()
  else .error ()

/-- `Display for ContentRangeSpec` from `content_range.rs`. -/
def contentRangeSpec_fmt : ContentRangeSpec → List Char
  | .Satisfied a b len =>
    "bytes ".data ++ natDigits a ++ ['-'] ++ natDigits b ++ ['/'] ++
      (match len with | some v => natDigits v | none => ['*'])
  | .Unsatisfied len => "bytes */".data ++ natDigits len

/-! ### Decimal digit lemmas -/

theorem natDigits_ne_nil (n : Nat) : natDigits n ≠ [] := by
  unfold natDigits
  split <;> simp

theorem digitChar_isDigit {m : Nat} (h : m < 10) :
    (digitChar m).isDigit = true := by
  interval_cases m <;> decide

theorem digitChar_toNat {m : Nat} (h : m < 10) :
    (digitChar m).toNat = 48 + m := by
  interval_cases m <;> decide

theorem natDigits_all_digit (n : Nat) :
    ∀ c ∈ natDigits n, c.isDigit = true := by
  induction n using Nat.strong_induction_on with
  | _ n ih =>
    unfold natDigits
    split
    · next h =>
      intro c hc
      simp only [List.mem_singleton] at hc
      subst hc
      exact digitChar_isDigit h
    · next h =>
      intro c hc
      rw [List.mem_append] at hc
      rcases hc with hc | hc
      · exact ih (n / 10) (Nat.div_lt_self (by omega) (by omega)) c hc
      · simp only [List.mem_singleton] at hc
        subst hc
        exact digitChar_isDigit (Nat.mod_lt n (by omega))

theorem digitsToNat_append_singleton (l : List Char) (c : Char) :
    digitsToNat (l ++ [c]) = 10 * digitsToNat l + (c.toNat - 48) := by
  simp [digitsToNat, List.foldl_append]

theorem digitsToNat_natDigits (n : Nat) : digitsToNat (natDigits n) = n := by
  induction n using Nat.strong_induction_on with
  | _ n ih =>
    unfold natDigits
    split
    · next h =>
      interval_cases n <;> decide
    · next h =>
      rw [digitsToNat_append_singleton,
        ih (n / 10) (Nat.div_lt_self (by omega) (by omega)),
        digitChar_toNat (Nat.mod_lt n (by omega))]
      omega

theorem stripPlus_eq_self {s : List Char}
    (h : ∀ c ∈ s, c.isDigit = true) : stripPlus s = s := by
  cases s with
  | nil => rfl
  | cons c t =>
    show (if c = '+' then t else c :: t) = c :: t
    rw [if_neg]
    intro hc
    have := h c (List.mem_cons_self c t)
    rw [hc] at this
    simp at this

theorem parseU64_natDigits {n : Nat} (h : n < U64_SIZE) :
    parseU64 (natDigits n) = some n := by
  unfold parseU64
  rw [stripPlus_eq_self (natDigits_all_digit n)]
  rw [if_pos, digitsToNat_natDigits]
  refine ⟨natDigits_ne_nil n, natDigits_all_digit n, ?_⟩
  rw [digitsToNat_natDigits]
  exact h

theorem parseU64_ne_nil {s : List Char} {v : Nat} (h : parseU64 s = some v) :
    s ≠ [] := by
  intro hs
  subst hs
  simp [parseU64, stripPlus] at h

theorem not_mem_natDigits {c : Char} (h : c.isDigit = false) (n : Nat) :
    c ∉ natDigits n := by
  intro hc
  have h2 := natDigits_all_digit n c hc
  rw [h2] at h
  simp at h

/-! ### `splitOnChar` lemmas -/

theorem splitOnChar_of_not_mem {sep : Char} {l : List Char} (h : sep ∉ l) :
    splitOnChar sep l = [l] := by
  induction l with
  | nil => rfl
  | cons c cs ih =>
    simp only [List.mem_cons, not_or] at h
    simp only [splitOnChar, ih h.2]
    rw [if_neg (fun hc => h.1 hc.symm)]

theorem splitOnChar_append {sep : Char} (A B : List Char) (hA : sep ∉ A) :
    splitOnChar sep (A ++ sep :: B) = A :: splitOnChar sep B := by
  induction A with
  | nil => simp [splitOnChar]
  | cons c cs ih =>
    simp only [List.mem_cons, not_or] at hA
    simp only [List.cons_append, splitOnChar, List.append_eq, ih hA.2]
    rw [if_neg (fun hc => hA.1 hc.symm)]

theorem splitOnChar_pair {sep : Char} (A B : List Char)
    (hA : sep ∉ A) (hB : sep ∉ B) :
    splitOnChar sep (A ++ sep :: B) = [A, B] := by
  rw [splitOnChar_append A B hA, splitOnChar_of_not_mem hB]

/-! ### Prefix handling -/

theorem isPrefixOf_append_self (p l : List Char) :
    p.isPrefixOf (p ++ l) = true := by
  induction p with
  | nil => simp [List.isPrefixOf]
  | cons a t ih => simp [List.isPrefixOf, ih]

/-! ### `parse_part` lemmas -/

theorem parse_part_nil : parse_part [] = .ok none := rfl

theorem parse_part_of_parseU64 {s : List Char} {v : Nat}
    (h : parseU64 s = some v) : parse_part s = .ok (some v) := by
  unfold parse_part
  rw [if_neg (by rw [List.length_eq_zero]; exact parseU64_ne_nil h), h]

theorem parse_part_natDigits {n : Nat} (h : n < U64_SIZE) :
    parse_part (natDigits n) = .ok (some n) :=
  parse_part_of_parseU64 (parseU64_natDigits h)

theorem dash_not_mem_natDigits (n : Nat) : '-' ∉ natDigits n :=
  not_mem_natDigits (by decide) n

theorem slash_not_mem_natDigits (n : Nat) : '/' ∉ natDigits n :=
  not_mem_natDigits (by decide) n

theorem star_not_mem_natDigits (n : Nat) : '*' ∉ natDigits n :=
  not_mem_natDigits (by decide) n

theorem natDigits_ne_star (n : Nat) : natDigits n ≠ ['*'] := fun h =>
  star_not_mem_natDigits n (h ▸ List.mem_singleton_self '*')

theorem parse_part_eq_ok_none_iff (s : List Char) :
    parse_part s = .ok none ↔ s = [] := by
  unfold parse_part
  by_cases hlen : s.length = 0
  · rw [List.length_eq_zero] at hlen
    rw [if_pos (by simp [hlen])]
    simp [hlen]
  · rw [if_neg hlen]
    rw [List.length_eq_zero] at hlen
    cases hp : parseU64 s with
    | none => simp [hlen]
    | some w => simp [hlen]

theorem parse_part_eq_ok_some_iff (s : List Char) (v : Nat) :
    parse_part s = .ok (some v) ↔ parseU64 s = some v := by
  unfold parse_part
  by_cases hlen : s.length = 0
  · rw [if_pos hlen]
    rw [List.length_eq_zero] at hlen
    subst hlen
    constructor
    · intro h; simp at h
    · intro h; exact absurd h (by simp [parseU64, stripPlus])
  · rw [if_neg hlen]
    cases hp : parseU64 s with
    | none => simp
    | some w => simp

theorem parseU64_eq_some_iff (s : List Char) (v : Nat) :
    parseU64 s = some v ↔
      ∃ t, (s = t ∨ s = '+' :: t) ∧ t ≠ [] ∧
        (∀ c ∈ t, c.isDigit = true) ∧ digitsToNat t = v ∧ v < U64_SIZE := by
  constructor
  · intro h
    unfold parseU64 at h
    split at h
    · next hc =>
      obtain ⟨h1, h2, h3⟩ := hc
      injection h with h4
      refine ⟨stripPlus s, ?_, h1, h2, h4, h4 ▸ h3⟩
      cases s with
      | nil => exact Or.inl rfl
      | cons c t =>
        show c :: t = stripPlus (c :: t) ∨ c :: t = '+' :: stripPlus (c :: t)
        by_cases hplus : c = '+'
        · subst hplus
          exact Or.inr (by simp [stripPlus])
        · exact Or.inl (by simp [stripPlus, hplus])
    · exact absurd h (by simp)
  · rintro ⟨t, hst, hne, hdig, hval, hlt⟩
    have hstrip : stripPlus s = t := by
      rcases hst with h | h
      · subst h
        exact stripPlus_eq_self hdig
      · subst h
        simp [stripPlus]
    unfold parseU64
    rw [hstrip, if_pos ⟨hne, hdig, hval ▸ hlt⟩, hval]

theorem satisfied_star_parse (a b : Nat) (ha : a < U64_SIZE) (hb : b < U64_SIZE) :
    contentRangeSpec_from_str
      ("bytes ".data ++ ((natDigits a ++ '-' :: natDigits b) ++ '/' :: ['*']))
      = .ok (.Satisfied a b none) := by
  have hX : '/' ∉ natDigits a ++ '-' :: natDigits b := by
    simp only [List.mem_append, List.mem_cons, not_or]
    exact ⟨slash_not_mem_natDigits a, by decide, slash_not_mem_natDigits b⟩
  have hXstar : natDigits a ++ '-' :: natDigits b ≠ ['*'] := by
    intro h
    have hl := congrArg List.length h
    have hpa : 0 < (natDigits a).length := List.length_pos.mpr (natDigits_ne_nil a)
    simp [List.length_append] at hl
    omega
  have hsplitd : splitOnChar '-' (natDigits a ++ '-' :: natDigits b)
      = [natDigits a, natDigits b] :=
    splitOnChar_pair _ _ (dash_not_mem_natDigits a) (dash_not_mem_natDigits b)
  have hsplit : splitOnChar '/' ((natDigits a ++ '-' :: natDigits b) ++ '/' :: ['*'])
      = [natDigits a ++ '-' :: natDigits b, ['*']] :=
    splitOnChar_pair _ _ hX (by decide)
  unfold contentRangeSpec_from_str
  rw [if_pos (isPrefixOf_append_self _ _), List.drop_left]
  simp only [hsplit, if_true]
  simp only [hsplitd, if_neg hXstar, parseU64_natDigits ha, parseU64_natDigits hb]

/-! ### Claims -/

/-- Claim C1: for every `ByteRange` whose `start` and `end` are each `None`
or `Some` of a `u64`, with `end ≥ start` whenever both are `Some`, parsing
the formatted wire string yields the original value. -/
theorem C1_byteRange_round_trip (r : ByteRange)
    (hs : ∀ v, r.start = some v → v < U64_SIZE)
    (he : ∀ v, r.«end» = some v → v < U64_SIZE)
    (hord : ∀ a b, r.start = some a → r.«end» = some b → a ≤ b) :
    byteRange_from_str (byteRange_fmt r) = .ok r := by
  obtain ⟨st, en⟩ := r
  rcases st with _ | a <;> rcases en with _ | b
  · rfl
  · have hb := he b rfl
    have hsplit : splitOnChar '-' ('-' :: natDigits b) = [[], natDigits b] := by
      simpa using splitOnChar_pair [] (natDigits b) (by simp) (dash_not_mem_natDigits b)
    have hfmt : byteRange_fmt ⟨none, some b⟩ = "bytes=".data ++ ('-' :: natDigits b) := by
      simp [byteRange_fmt]
    rw [hfmt]
    unfold byteRange_from_str
    rw [if_pos (isPrefixOf_append_self _ _), List.drop_left]
    simp only [hsplit, parse_part_nil, parse_part_natDigits hb]
  · have ha := hs a rfl
    have hsplit : splitOnChar '-' (natDigits a ++ '-' :: []) = [natDigits a, []] :=
      splitOnChar_pair _ _ (dash_not_mem_natDigits a) (by simp)
    have hfmt : byteRange_fmt ⟨some a, none⟩ = "bytes=".data ++ (natDigits a ++ '-' :: []) := by
      simp [byteRange_fmt]
    rw [hfmt]
    unfold byteRange_from_str
    rw [if_pos (isPrefixOf_append_self _ _), List.drop_left]
    simp only [hsplit, parse_part_nil, parse_part_natDigits ha]
  · have ha := hs a rfl
    have hb := he b rfl
    have hab := hord a b rfl rfl
    have hsplit : splitOnChar '-' (natDigits a ++ '-' :: natDigits b)
        = [natDigits a, natDigits b] :=
      splitOnChar_pair _ _ (dash_not_mem_natDigits a) (dash_not_mem_natDigits b)
    have hfmt : byteRange_fmt ⟨some a, some b⟩
        = "bytes=".data ++ (natDigits a ++ '-' :: natDigits b) := by
      simp [byteRange_fmt]
    rw [hfmt]
    unfold byteRange_from_str
    rw [if_pos (isPrefixOf_append_self _ _), List.drop_left]
    simp only [hsplit, parse_part_natDigits ha, parse_part_natDigits hb]
    rw [if_neg (by omega)]

/-- Witness for claim C1 at the concrete value `{start: Some 1, end: Some 2}`. -/
theorem C1_byteRange_round_trip_witness :
    byteRange_from_str (byteRange_fmt ⟨some 1, some 2⟩) = .ok ⟨some 1, some 2⟩ :=
  C1_byteRange_round_trip ⟨some 1, some 2⟩
    (by intro v hv; cases hv; decide)
    (by intro v hv; cases hv; decide)
    (by intro a b h1 h2; cases h1; cases h2; decide)

/-- Claim C2: for every `ContentRangeSpec` value — `Satisfied` with arbitrary
`u64` bounds and optional `u64` length, or `Unsatisfied` with a `u64`
length — parsing the formatted wire string yields the original value. -/
theorem C2_contentRange_round_trip :
    (∀ (a b : Nat) (len : Option Nat), a < U64_SIZE → b < U64_SIZE →
      (∀ v, len = some v → v < U64_SIZE) →
      contentRangeSpec_from_str (contentRangeSpec_fmt (.Satisfied a b len))
        = .ok (.Satisfied a b len)) ∧
    (∀ v : Nat, v < U64_SIZE →
      contentRangeSpec_from_str (contentRangeSpec_fmt (.Unsatisfied v))
        = .ok (.Unsatisfied v)) := by
  constructor
  · intro a b len ha hb hlen
    have hX : '/' ∉ natDigits a ++ '-' :: natDigits b := by
      simp only [List.mem_append, List.mem_cons, not_or]
      exact ⟨slash_not_mem_natDigits a, by decide, slash_not_mem_natDigits b⟩
    have hXstar : natDigits a ++ '-' :: natDigits b ≠ ['*'] := by
      intro h
      have hl := congrArg List.length h
      have hpa : 0 < (natDigits a).length := List.length_pos.mpr (natDigits_ne_nil a)
      simp [List.length_append] at hl
      omega
    have hsplitd : splitOnChar '-' (natDigits a ++ '-' :: natDigits b)
        = [natDigits a, natDigits b] :=
      splitOnChar_pair _ _ (dash_not_mem_natDigits a) (dash_not_mem_natDigits b)
    rcases len with _ | v
    · have hfmt : contentRangeSpec_fmt (.Satisfied a b none)
          = "bytes ".data ++ ((natDigits a ++ '-' :: natDigits b) ++ '/' :: ['*']) := by
        simp [contentRangeSpec_fmt]
      rw [hfmt]
      exact satisfied_star_parse a b ha hb
    · have hv := hlen v rfl
      have hfmt : contentRangeSpec_fmt (.Satisfied a b (some v))
          = "bytes ".data ++ ((natDigits a ++ '-' :: natDigits b) ++ '/' :: natDigits v) := by
        simp [contentRangeSpec_fmt]
      have hsplit : splitOnChar '/' ((natDigits a ++ '-' :: natDigits b) ++ '/' :: natDigits v)
          = [natDigits a ++ '-' :: natDigits b, natDigits v] :=
        splitOnChar_pair _ _ hX (slash_not_mem_natDigits v)
      rw [hfmt]
      unfold contentRangeSpec_from_str
      rw [if_pos (isPrefixOf_append_self _ _), List.drop_left]
      simp only [hsplit]
      rw [if_neg (natDigits_ne_star v)]
      simp only [parseU64_natDigits hv, hsplitd, if_neg hXstar,
        parseU64_natDigits ha, parseU64_natDigits hb]
  · intro v hv
    have hfmt : contentRangeSpec_fmt (.Unsatisfied v)
        = "bytes ".data ++ ('*' :: '/' :: natDigits v) := rfl
    have hsplit : splitOnChar '/' ('*' :: '/' :: natDigits v)
        = [['*'], natDigits v] := by
      simpa using splitOnChar_pair ['*'] (natDigits v) (by decide) (slash_not_mem_natDigits v)
    rw [hfmt]
    unfold contentRangeSpec_from_str
    rw [if_pos (isPrefixOf_append_self _ _), List.drop_left]
    simp only [hsplit]
    rw [if_neg (natDigits_ne_star v)]
    simp only [parseU64_natDigits hv, if_true]

/-- Witness for claim C2 at `Satisfied 3 7 (Some 10)` and `Unsatisfied 5`. -/
theorem C2_contentRange_round_trip_witness :
    contentRangeSpec_from_str (contentRangeSpec_fmt (.Satisfied 3 7 (some 10)))
      = .ok (.Satisfied 3 7 (some 10)) ∧
    contentRangeSpec_from_str (contentRangeSpec_fmt (.Unsatisfied 5))
      = .ok (.Unsatisfied 5) :=
  ⟨C2_contentRange_round_trip.1 3 7 (some 10) (by decide) (by decide)
      (by intro v hv; cases hv; decide),
    C2_contentRange_round_trip.2 5 (by decide)⟩

/-- Claim C3: `ByteRange` parsing rejects every input whose two segments
both parse to numbers with `end < start`, while `ContentRangeSpec` parsing
accepts `Satisfied` values with `last_byte < first_byte` for every such
numeric pair. -/
theorem C3_order_check_asymmetry :
    (∀ (s p0 p1 : List Char) (a b : Nat),
      ("bytes=".data).isPrefixOf s = true →
      splitOnChar '-' (s.drop ("bytes=".data).length) = [p0, p1] →
      parseU64 p0 = some a → parseU64 p1 = some b → b < a →
      byteRange_from_str s = .error ()) ∧
    (∀ a b : Nat, a < U64_SIZE → b < U64_SIZE → b < a →
      contentRangeSpec_from_str
        ("bytes ".data ++ ((natDigits a ++ '-' :: natDigits b) ++ '/' :: ['*']))
        = .ok (.Satisfied a b none)) := by
  constructor
  · intro s p0 p1 a b hpre hsplit hpa hpb hlt
    unfold byteRange_from_str
    rw [if_pos hpre]
    simp only [hsplit, parse_part_of_parseU64 hpa, parse_part_of_parseU64 hpb]
    rw [if_pos hlt]
  · intro a b ha hb _hlt
    exact satisfied_star_parse a b ha hb

/-- Witness for claim C3 at `"bytes=5-4"` and at the wire string for
`Satisfied 5 4` with unknown length. -/
theorem C3_order_check_asymmetry_witness :
    byteRange_from_str "bytes=5-4".data = .error () ∧
    contentRangeSpec_from_str
      ("bytes ".data ++ ((natDigits 5 ++ '-' :: natDigits 4) ++ '/' :: ['*']))
      = .ok (.Satisfied 5 4 none) :=
  ⟨C3_order_check_asymmetry.1 "bytes=5-4".data ['5'] ['4'] 5 4
      (by decide) (by decide) (by decide) (by decide) (by decide),
    C3_order_check_asymmetry.2 5 4 (by decide) (by decide) (by decide)⟩

/-- Claim C4 counterexample: the segment `"+0"` of `"bytes=+0-1"` contains
the non-digit character `'+'`, yet the whole parse succeeds — Rust's
`u64::from_str` accepts an optional leading `'+'` sign, so a non-digit
character in a segment does not always make the parse malformed. -/
theorem C4_counterexample :
    splitOnChar '-' ("bytes=+0-1".data.drop ("bytes=".data).length)
      = [['+', '0'], ['1']] ∧
    '+' ∈ ['+', '0'] ∧ '+'.isDigit = false ∧
    byteRange_from_str "bytes=+0-1".data = .ok ⟨some 0, some 1⟩ :=
  ⟨by decide, by decide, by decide, rfl⟩

/-- Claim C4 as amended: an empty segment yields `None`; a non-empty
segment parses as Rust's decimal `u64` — an optional leading `'+'` sign
followed by one or more digits denoting a value below `2 ^ 64` — and a
segment failing that parse makes the whole parse malformed. -/
theorem C4_segment_parsing_amended :
    (∀ s : List Char, parse_part s = .ok none ↔ s = []) ∧
    (∀ (s : List Char) (v : Nat), parse_part s = .ok (some v) ↔
      ∃ t, (s = t ∨ s = '+' :: t) ∧ t ≠ [] ∧
        (∀ c ∈ t, c.isDigit = true) ∧ digitsToNat t = v ∧ v < U64_SIZE) ∧
    (∀ (p0 p1 : List Char), '-' ∉ p0 → '-' ∉ p1 → parse_part p0 = .error () →
      byteRange_from_str ("bytes=".data ++ (p0 ++ '-' :: p1)) = .error ()) ∧
    (∀ (p0 p1 : List Char), '-' ∉ p0 → '-' ∉ p1 → parse_part p1 = .error () →
      byteRange_from_str ("bytes=".data ++ (p0 ++ '-' :: p1)) = .error ()) := by
  refine ⟨parse_part_eq_ok_none_iff, ?_, ?_, ?_⟩
  · intro s v
    rw [parse_part_eq_ok_some_iff, parseU64_eq_some_iff]
  · intro p0 p1 h0 h1 herr
    unfold byteRange_from_str
    rw [if_pos (isPrefixOf_append_self _ _), List.drop_left]
    cases h1p : parse_part p1 with
    | error e => simp only [splitOnChar_pair p0 p1 h0 h1, herr, h1p]
    | ok en => simp only [splitOnChar_pair p0 p1 h0 h1, herr, h1p]
  · intro p0 p1 h0 h1 herr
    unfold byteRange_from_str
    rw [if_pos (isPrefixOf_append_self _ _), List.drop_left]
    cases h0p : parse_part p0 with
    | error e => simp only [splitOnChar_pair p0 p1 h0 h1, h0p]
    | ok st => simp only [splitOnChar_pair p0 p1 h0 h1, h0p, herr]

/-- Witness for claim C4's amended statement: the empty segment, the
segment `"4"`, and a failing segment `"x"` in either position. -/
theorem C4_segment_parsing_amended_witness :
    parse_part [] = .ok none ∧
    parse_part ['4'] = .ok (some 4) ∧
    byteRange_from_str ("bytes=".data ++ (['x'] ++ '-' :: [])) = .error () ∧
    byteRange_from_str ("bytes=".data ++ ([] ++ '-' :: ['x'])) = .error () :=
  ⟨(C4_segment_parsing_amended.1 []).mpr rfl,
    (C4_segment_parsing_amended.2.1 ['4'] 4).mpr
      ⟨['4'], Or.inl rfl, by decide, by decide, by decide, by decide⟩,
    C4_segment_parsing_amended.2.2.1 ['x'] [] (by decide) (by decide) rfl,
    C4_segment_parsing_amended.2.2.2 [] ['x'] (by decide) (by decide) rfl⟩

/-- Claim C5: the input `"bytes=-"` (both segments empty) is accepted and
yields `{start: None, end: None}`. -/
theorem C5_both_empty_segments :
    byteRange_from_str "bytes=-".data = .ok ⟨none, none⟩ := rfl

/-- Claim C6: `"bytes */*"` is malformed; when the range segment is `'*'`
(the `Unsatisfied` form) the instance-length segment must be a decimal
integer, while a numeric range segment accepts `'*'` as the
instance-length segment (`Satisfied` with `instance_length = None`). -/
theorem C6_star_length_forms :
    contentRangeSpec_from_str "bytes */*".data = .error () ∧
    (∀ (s p1 : List Char),
      ("bytes ".data).isPrefixOf s = true →
      splitOnChar '/' (s.drop ("bytes ".data).length) = [['*'], p1] →
      (p1 = ['*'] → contentRangeSpec_from_str s = .error ()) ∧
      (∀ n, parseU64 p1 = some n →
        contentRangeSpec_from_str s = .ok (.Unsatisfied n))) ∧
    (∀ a b : Nat, a < U64_SIZE → b < U64_SIZE →
      contentRangeSpec_from_str
        ("bytes ".data ++ ((natDigits a ++ '-' :: natDigits b) ++ '/' :: ['*']))
        = .ok (.Satisfied a b none)) := by
  refine ⟨rfl, ?_, fun a b ha hb => satisfied_star_parse a b ha hb⟩
  intro s p1 hpre hsplit
  constructor
  · intro hstar
    subst hstar
    unfold contentRangeSpec_from_str
    rw [if_pos hpre]
    simp only [hsplit, if_true]
  · intro n hn
    have hp1 : p1 ≠ ['*'] := by
      intro h
      subst h
      rw [show parseU64 ['*'] = none from rfl] at hn
      exact Option.noConfusion hn
    unfold contentRangeSpec_from_str
    rw [if_pos hpre]
    simp only [hsplit]
    rw [if_neg hp1]
    simp only [hn, if_true]

/-- Witness for claim C6 at `"bytes */7"` and the `Satisfied 1 2` star
form. -/
theorem C6_star_length_forms_witness :
    contentRangeSpec_from_str "bytes */7".data = .ok (.Unsatisfied 7) ∧
    contentRangeSpec_from_str
      ("bytes ".data ++ ((natDigits 1 ++ '-' :: natDigits 2) ++ '/' :: ['*']))
      = .ok (.Satisfied 1 2 none) :=
  ⟨(C6_star_length_forms.2.1 "bytes */7".data ['7'] (by decide) (by decide)).2
      7 (by decide),
    C6_star_length_forms.2.2 1 2 (by decide) (by decide)⟩

/-- Claim C7: `ByteRange` parsing rejects every input not starting with
`"bytes="`, and `ContentRangeSpec` parsing rejects every input not
starting with `"bytes "`. -/
theorem C7_prefix_required :
    (∀ s : List Char, ¬(("bytes=".data).isPrefixOf s = true) →
      byteRange_from_str s = .error ()) ∧
    (∀ s : List Char, ¬(("bytes ".data).isPrefixOf s = true) →
      contentRangeSpec_from_str s = .error ()) := by
  constructor
  · intro s h
    unfold byteRange_from_str
    rw [if_neg h]
  · intro s h
    unfold contentRangeSpec_from_str
    rw [if_neg h]

/-- Witness for claim C7 at `"x=0-499"` (no `"bytes="` prefix) and
`"bytes=0-499"` (no `"bytes "` prefix). -/
theorem C7_prefix_required_witness :
    byteRange_from_str "x=0-499".data = .error () ∧
    contentRangeSpec_from_str "bytes=0-499".data = .error () :=
  ⟨C7_prefix_required.1 "x=0-499".data (by decide),
    C7_prefix_required.2 "bytes=0-499".data (by decide)⟩

/-- Claim C8: every literal example of the spec's §6 table produces
exactly the stated result. -/
theorem C8_spec_table :
    contentRangeSpec_from_str "bytes 0-499/500".data
      = .ok (.Satisfied 0 499 (some 500)) ∧
    contentRangeSpec_from_str "bytes 0-499".data = .error () ∧
    contentRangeSpec_from_str "bytes".data = .error () ∧
    contentRangeSpec_from_str "".data = .error () ∧
    byteRange_from_str "bytes=0-499".data = .ok ⟨some 0, some 499⟩ ∧
    byteRange_from_str "bytes=99-".data = .ok ⟨some 99, none⟩ ∧
    byteRange_from_str "bytes=-99".data = .ok ⟨none, some 99⟩ ∧
    byteRange_from_str "bytes=".data = .error () ∧
    byteRange_from_str "x=0-499".data = .error () ∧
    byteRange_from_str "bytes=5-4".data = .error () ∧
    byteRange_from_str "bytes=0-499,510-520".data = .error () :=
  ⟨rfl, rfl, rfl, rfl, rfl, rfl, rfl, rfl, rfl, rfl, rfl⟩

/-- Claim C9: both parsers are total functions into the `Result` type —
every input yields either a typed value or the malformed error. -/
theorem C9_totality :
    (∀ s : List Char,
      (∃ r, byteRange_from_str s = .ok r) ∨ byteRange_from_str s = .error ()) ∧
    (∀ s : List Char,
      (∃ r, contentRangeSpec_from_str s = .ok r) ∨
        contentRangeSpec_from_str s = .error ()) := by
  constructor
  · intro s
    cases h : byteRange_from_str s with
    | ok r => exact Or.inl ⟨r, rfl⟩
    | error e => cases e; exact Or.inr rfl
  · intro s
    cases h : contentRangeSpec_from_str s with
    | ok r => exact Or.inl ⟨r, rfl⟩
    | error e => cases e; exact Or.inr rfl

/-- Claim C10: `ContentRangeSpec` parsing performs no consistency check
between the byte range and the instance length: `"bytes 0-499/1"` — a
500-byte range with a stated total length of 1 — parses successfully. -/
theorem C10_no_length_consistency_check :
    contentRangeSpec_from_str "bytes 0-499/1".data
      = .ok (.Satisfied 0 499 (some 1)) ∧ (1 : Nat) < 499 - 0 + 1 :=
  ⟨rfl, by norm_num⟩

end HyperRange
